import Mathlib

/-!
Verification of the RAII file-handle wrapper in
`src/smart_pointers/usecase_heavy_objects.cpp` (the `usecase_files.cpp`
teaching example): the raw collaborator `FileHandle` and the move-only
RAII wrapper `File`.

The C++ code is embedded shallowly:

* `FileHandle` is a record holding the `name_` field; its member functions
  `open`, `close` and `write` become pure functions returning the new
  state together with the line printed to `std::cout`.
* `File` holds `fh_ : std::unique_ptr<FileHandle>`, modelled as
  `Option (Nat × FileHandle)`: `none` is the null pointer (the moved-from,
  Empty state) and `some (rid, h)` is a pointer to a live `FileHandle`
  object whose identity is the allocation number `rid`.
* Whole programs are sequences of operations (`Op`) on named handle
  variables, executed by `step` over a system state `Sys` that records the
  live `File` objects, the next allocation number, and the trace of
  `opening`/`closing`/`writing` lines printed so far.
-/

namespace UsecaseFiles

/-- The raw C-style collaborator: `class FileHandle { std::string name_ = "uninitialized."; }`. -/
structure FileHandle where
  name : String
deriving DecidableEq

/-- Default construction `FileHandle foo;` leaves `name_ = "uninitialized."`. -/
def FileHandle.init : FileHandle :=
  { name := "uninitialized." }

/-- Member `void open(std::string name)`: prints `opening: <name>` and stores the name. -/
def FileHandle.openHandle (_fh : FileHandle) (n : String) : FileHandle × String :=
  ({ name := n }, "opening: " ++ n)

/-- Member `void close()`: prints `closing: <name_>` and sets `name_ = "closed."`. -/
def FileHandle.close (fh : FileHandle) : FileHandle × String :=
  ({ name := "closed." }, "closing: " ++ fh.name)

/-- Member `void write()`: prints `writing to: <name_>` and leaves the state unchanged. -/
def FileHandle.write (fh : FileHandle) : FileHandle × String :=
  (fh, "writing to: " ++ fh.name)

/-- The RAII wrapper `class File { std::unique_ptr<FileHandle> fh_; }`.
`fh = none` models the null `unique_ptr` (the handle is Empty, i.e. moved-from);
`fh = some (rid, h)` models a pointer to the `FileHandle` object allocated as
the `rid`-th `make_unique` call, currently in state `h` (the handle is Owning). -/
structure File where
  fh : Option (Nat × FileHandle)
deriving DecidableEq

/-- Observable events of a run, one per line the C++ program prints through
`FileHandle`: `opened rid n` for `opening: n` (from `FileHandle::open`),
`closed rid n` for `closing: n` (from `FileHandle::close`) and
`wrote rid n` for `writing to: n` (from `FileHandle::write`), each tagged
with the identity `rid` of the `FileHandle` object involved. -/
inductive Event where
  | opened (rid : Nat) (n : String)
  | closed (rid : Nat) (n : String)
  | wrote (rid : Nat) (n : String)
deriving DecidableEq

/-- Operations a client can perform on `File` variables, named by a `Nat`
variable id: `construct x n` is `File x(n);`, `moveCtorInit y x` is
`File y(std::move(x));`, `moveAssign y x` is `y = std::move(x);`,
`destroy x` is `x` leaving scope, and `write x` is `x.write();`.
Copy construction and copy assignment are deleted in the source
(`File(const File &) = delete;` and `File &operator=(const File &) = delete;`),
so no copy operation exists here. -/
inductive Op where
  | construct (hid : Nat) (n : String)
  | moveCtorInit (hid src : Nat)
  | moveAssign (tgt src : Nat)
  | destroy (hid : Nat)
  | write (hid : Nat)
deriving DecidableEq

/-- The state of a run: the live `File` variables (an association list from
variable id to `File` value), the allocation counter giving each
`make_unique<FileHandle>()` result its identity, and the printed trace. -/
structure Sys where
  live : List (Nat × File)
  nextRid : Nat
  trace : List Event
deriving DecidableEq

/-- The empty initial state: no live handles, nothing printed. -/
def Sys.init : Sys :=
  { live := [], nextRid := 0, trace := [] }

/-- Replace the value stored under variable id `hid`. -/
def setF (l : List (Nat × File)) (hid : Nat) (g : File) : List (Nat × File) :=
  l.map (fun p => if p.1 = hid then (hid, g) else p)

/-- Remove the variable id `hid` (the variable leaves scope). -/
def eraseF (l : List (Nat × File)) (hid : Nat) : List (Nat × File) :=
  l.filter (fun p => p.1 != hid)

/-- The close events emitted by `if (fh_ != nullptr) { fh_->close(); }`:
one `closing:` line naming the current `name_` when the pointer is non-null,
nothing when it is null. -/
def closeEvents (fh : Option (Nat × FileHandle)) : List Event :=
  match fh with
  | some (rid, h) => [Event.closed rid h.name]
  | none => []

/-- One step of execution. `none` means the operation is not a defined,
well-formed C++ execution at this point: using a variable id that is not a
live object, redeclaring a live one, or calling `write` through a null
`fh_` (a null `unique_ptr` dereference, which is undefined behavior). -/
def step (s : Sys) (op : Op) : Option Sys :=
  match op with
  | Op.construct hid n =>
    match s.live.lookup hid with
    | some _ => none
    | none =>
      let fh1 := (FileHandle.init.openHandle n).1
      some { live := (hid, { fh := some (s.nextRid, fh1) }) :: s.live,
             nextRid := s.nextRid + 1,
             trace := s.trace ++ [Event.opened s.nextRid n] }
  | Op.moveCtorInit hid src =>
    match s.live.lookup hid, s.live.lookup src with
    | none, some fs =>
      some { live := (hid, { fh := fs.fh }) :: setF s.live src { fh := none },
             nextRid := s.nextRid,
             trace := s.trace }
    | _, _ => none
  | Op.moveAssign tgt src =>
    match s.live.lookup tgt, s.live.lookup src with
    | some ft, some fs =>
      if tgt = src then
        some s
      else
        some { live := setF (setF s.live tgt { fh := fs.fh }) src { fh := none },
               nextRid := s.nextRid,
               trace := s.trace ++ closeEvents ft.fh }
    | _, _ => none
  | Op.destroy hid =>
    match s.live.lookup hid with
    | some f =>
      some { live := eraseF s.live hid,
             nextRid := s.nextRid,
             trace := s.trace ++ closeEvents f.fh }
    | none => none
  | Op.write hid =>
    match s.live.lookup hid with
    | some f =>
      match f.fh with
      | some (rid, h) =>
        some { live := setF s.live hid { fh := some (rid, (h.write).1) },
               nextRid := s.nextRid,
               trace := s.trace ++ [Event.wrote rid h.name] }
      | none => none
    | none => none

/-- Run a whole sequence of operations from a state. -/
def run (s : Sys) : List Op → Option Sys
  | [] => some s
  | op :: ops =>
    match step s op with
    | some s1 => run s1 ops
    | none => none

/-- Does the handle currently own the `FileHandle` object with identity `rid`? -/
def File.holds (f : File) (rid : Nat) : Bool :=
  match f.fh with
  | some (r, _) => r == rid
  | none => false

/-- Number of live `File` variables that own the `FileHandle` with identity `rid`. -/
def countHolds (l : List (Nat × File)) (rid : Nat) : Nat :=
  (l.filter (fun p => p.2.holds rid)).length

/-- Is this the `opening:` event of the `FileHandle` with identity `rid`? -/
def Event.isOpenedOf (e : Event) (rid : Nat) : Bool :=
  match e with
  | Event.opened r _ => r == rid
  | _ => false

/-- Is this the `closing:` event of the `FileHandle` with identity `rid`? -/
def Event.isClosedOf (e : Event) (rid : Nat) : Bool :=
  match e with
  | Event.closed r _ => r == rid
  | _ => false

/-- Number of `opening:` lines printed for the `FileHandle` with identity `rid`. -/
def openedCount (tr : List Event) (rid : Nat) : Nat :=
  (tr.filter (fun e => e.isOpenedOf rid)).length

/-- Number of `closing:` lines printed for the `FileHandle` with identity `rid`. -/
def closedCount (tr : List Event) (rid : Nat) : Nat :=
  (tr.filter (fun e => e.isClosedOf rid)).length

/-- The variable ids of the live handles. -/
def keys (l : List (Nat × File)) : List Nat :=
  l.map Prod.fst

/-- The state invariant maintained by every operation: variable ids are
unique; for every `FileHandle` identity, the number of `opening:` lines
equals the number of `closing:` lines plus the number of live owners;
identities at or above the allocation counter are untouched; and no
identity is opened twice. -/
structure Inv (s : Sys) : Prop where
  nodup : (keys s.live).Nodup
  balance : ∀ rid, openedCount s.trace rid = closedCount s.trace rid + countHolds s.live rid
  fresh : ∀ rid, s.nextRid ≤ rid → openedCount s.trace rid = 0 ∧ countHolds s.live rid = 0
  once : ∀ rid, openedCount s.trace rid ≤ 1

/-- Is this a `closing:` event, for any `FileHandle`? -/
def Event.isClosedAny (e : Event) : Bool :=
  match e with
  | Event.closed _ _ => true
  | _ => false

/-- Total number of `closing:` lines printed, over all `FileHandle` identities. -/
def closedTotal (tr : List Event) : Nat :=
  (tr.filter Event.isClosedAny).length

/-- Possible behaviors of a single `File::write` call. The first and last
constructors are what `void write() { fh_->write(); }` can do: print a
`writing to:` line when `fh_` is non-null, or dereference a null
`unique_ptr` (undefined behavior) when it is null. The middle constructor
is the behavior the specification claims for the Empty state — a surfaced
`UseAfterRelease` error — and is included only so that claim can be stated;
no code path produces it. -/
inductive WriteBehavior where
  | writes (line : String)
  | raisesUseAfterRelease
  | nullDeref
deriving DecidableEq

/-- Behavior of `File::write`, translated from `void write() { fh_->write(); }`:
when `fh_` points at a `FileHandle` it prints `writing to: <name_>`, and when
`fh_` is null (the moved-from, Empty state) the call dereferences a null
pointer. -/
def File.writeBehavior (f : File) : WriteBehavior :=
  match f.fh with
  | some (_, h) => WriteBehavior.writes (h.write).2
  | none => WriteBehavior.nullDeref

theorem lookup_cons (k a : Nat) (v : File) (t : List (Nat × File)) :
    ((k, v) :: t).lookup a = if a = k then some v else t.lookup a := by
  simp [List.lookup]
  split <;> simp_all

theorem setF_cons (k hid : Nat) (v g : File) (t : List (Nat × File)) :
    setF ((k, v) :: t) hid g
      = (if k = hid then (hid, g) else (k, v)) :: setF t hid g := rfl

theorem lookup_none_not_mem {l : List (Nat × File)} {hid : Nat}
    (h : l.lookup hid = none) : hid ∉ keys l := by
  induction l with
  | nil => simp [keys]
  | cons p t ih =>
    obtain ⟨k, v⟩ := p
    rw [lookup_cons] at h
    by_cases hk : hid = k
    · simp [hk] at h
    · rw [if_neg hk] at h
      simp [keys]
      exact ⟨hk, by simpa [keys] using ih h⟩

theorem keys_setF (l : List (Nat × File)) (hid : Nat) (g : File) :
    keys (setF l hid g) = keys l := by
  induction l with
  | nil => rfl
  | cons p t ih =>
    obtain ⟨k, v⟩ := p
    by_cases hk : k = hid
    · subst hk
      simpa [keys, setF] using ih
    · simpa [keys, setF, hk] using ih

theorem setF_of_not_mem {l : List (Nat × File)} {hid : Nat} (g : File)
    (h : hid ∉ keys l) : setF l hid g = l := by
  induction l with
  | nil => rfl
  | cons p t ih =>
    obtain ⟨k, v⟩ := p
    simp [keys] at h
    have ht := ih (by simp [keys]; exact fun hm => h.2 hm)
    simp [setF, Ne.symm h.1] at ht ⊢
    exact ht

theorem lookup_setF_ne {l : List (Nat × File)} {hid a : Nat} (g : File)
    (h : a ≠ hid) : (setF l hid g).lookup a = l.lookup a := by
  induction l with
  | nil => rfl
  | cons p t ih =>
    obtain ⟨k, v⟩ := p
    rw [setF_cons]
    by_cases hk : k = hid
    · subst hk
      rw [if_pos rfl, lookup_cons, lookup_cons, if_neg h, if_neg h]
      exact ih
    · rw [if_neg hk, lookup_cons, lookup_cons]
      by_cases hak : a = k
      · simp [hak]
      · rw [if_neg hak, if_neg hak]
        exact ih

theorem lookup_setF_self {l : List (Nat × File)} {hid : Nat} {f : File} (g : File)
    (h : l.lookup hid = some f) : (setF l hid g).lookup hid = some g := by
  induction l with
  | nil => simp [List.lookup] at h
  | cons p t ih =>
    obtain ⟨k, v⟩ := p
    rw [setF_cons]
    by_cases hk : k = hid
    · rw [if_pos hk, lookup_cons, if_pos rfl]
    · rw [lookup_cons, if_neg (fun hh => hk hh.symm)] at h
      rw [if_neg hk, lookup_cons, if_neg (fun hh => hk hh.symm)]
      exact ih h

theorem countHolds_cons (k : Nat) (f : File) (t : List (Nat × File)) (rid : Nat) :
    countHolds ((k, f) :: t) rid
      = (if f.holds rid then 1 else 0) + countHolds t rid := by
  by_cases hf : f.holds rid
  · simp [countHolds, hf]
    omega
  · simp [countHolds, hf]

theorem keys_cons (k : Nat) (f : File) (t : List (Nat × File)) :
    keys ((k, f) :: t) = k :: keys t := rfl

theorem countHolds_setF {l : List (Nat × File)} {hid : Nat}
    (hnd : (keys l).Nodup) {f : File} (h : l.lookup hid = some f)
    (g : File) (rid : Nat) :
    countHolds (setF l hid g) rid + (if f.holds rid then 1 else 0)
      = countHolds l rid + (if g.holds rid then 1 else 0) := by
  induction l with
  | nil => simp [List.lookup] at h
  | cons p t ih =>
    obtain ⟨k, v⟩ := p
    rw [keys_cons, List.nodup_cons] at hnd
    rw [setF_cons]
    rw [lookup_cons] at h
    by_cases hk : hid = k
    · subst hk
      rw [if_pos rfl] at h
      have hv : v = f := Option.some.inj h
      subst hv
      rw [if_pos rfl, setF_of_not_mem g hnd.1, countHolds_cons, countHolds_cons]
      cases hg : g.holds rid <;> cases hv2 : v.holds rid <;> simp [hg, hv2] <;> omega
    · rw [if_neg hk] at h
      rw [if_neg (fun hh => hk hh.symm), countHolds_cons, countHolds_cons]
      have hrec := ih hnd.2 h
      cases hv : v.holds rid <;> simp [hv] <;> omega

theorem countHolds_eraseF {l : List (Nat × File)} {hid : Nat}
    (hnd : (keys l).Nodup) {f : File} (h : l.lookup hid = some f) (rid : Nat) :
    countHolds (eraseF l hid) rid + (if f.holds rid then 1 else 0)
      = countHolds l rid := by
  induction l with
  | nil => simp [List.lookup] at h
  | cons p t ih =>
    obtain ⟨k, v⟩ := p
    rw [keys_cons, List.nodup_cons] at hnd
    rw [lookup_cons] at h
    by_cases hk : hid = k
    · subst hk
      rw [if_pos rfl] at h
      have hv : v = f := Option.some.inj h
      subst hv
      have herase : eraseF ((hid, v) :: t) hid = t := by
        have ht : eraseF t hid = t := by
          refine List.filter_eq_self.mpr ?_
          intro p hp
          have : p.1 ∈ keys t := List.mem_map_of_mem Prod.fst hp
          have : p.1 ≠ hid := fun he => hnd.1 (he ▸ this)
          simpa using this
        simp [eraseF] at ht ⊢
        exact ht
      rw [herase, countHolds_cons]
      omega
    · rw [if_neg hk] at h
      have hne : (k != hid) = true := by
        simp
        exact fun hh => hk hh.symm
      have hcons : eraseF ((k, v) :: t) hid = (k, v) :: eraseF t hid := by
        simp [eraseF, List.filter_cons, hne]
      rw [hcons, countHolds_cons, countHolds_cons]
      have hrec := ih hnd.2 h
      omega

theorem keys_eraseF_nodup {l : List (Nat × File)} (hid : Nat)
    (hnd : (keys l).Nodup) : (keys (eraseF l hid)).Nodup :=
  List.Nodup.sublist (List.Sublist.map Prod.fst (List.filter_sublist l)) hnd

theorem openedCount_append (tr es : List Event) (rid : Nat) :
    openedCount (tr ++ es) rid = openedCount tr rid + openedCount es rid := by
  simp [openedCount, List.filter_append]

theorem closedCount_append (tr es : List Event) (rid : Nat) :
    closedCount (tr ++ es) rid = closedCount tr rid + closedCount es rid := by
  simp [closedCount, List.filter_append]

theorem openedCount_opened (r : Nat) (n : String) (rid : Nat) :
    openedCount [Event.opened r n] rid = if r = rid then 1 else 0 := by
  by_cases hr : r = rid
  · simp [openedCount, Event.isOpenedOf, hr]
  · simp [openedCount, Event.isOpenedOf, hr]

theorem closedCount_opened (r : Nat) (n : String) (rid : Nat) :
    closedCount [Event.opened r n] rid = 0 := by
  simp [closedCount, Event.isClosedOf]

theorem openedCount_closeEvents (fh : Option (Nat × FileHandle)) (rid : Nat) :
    openedCount (closeEvents fh) rid = 0 := by
  match fh with
  | none => simp [closeEvents, openedCount]
  | some (r, h) => simp [closeEvents, openedCount, Event.isOpenedOf]

theorem closedCount_closeEvents (fh : Option (Nat × FileHandle)) (rid : Nat) :
    closedCount (closeEvents fh) rid
      = if (File.mk fh).holds rid then 1 else 0 := by
  match fh with
  | none => simp [closeEvents, closedCount, File.holds]
  | some (r, h) =>
    by_cases hr : r = rid
    · simp [closeEvents, closedCount, Event.isClosedOf, File.holds, hr]
    · simp [closeEvents, closedCount, Event.isClosedOf, File.holds, hr]

theorem openedCount_wrote (r : Nat) (n : String) (rid : Nat) :
    openedCount [Event.wrote r n] rid = 0 := by
  simp [openedCount, Event.isOpenedOf]

theorem closedCount_wrote (r : Nat) (n : String) (rid : Nat) :
    closedCount [Event.wrote r n] rid = 0 := by
  simp [closedCount, Event.isClosedOf]

theorem File.holds_none (rid : Nat) : (File.mk none).holds rid = false := rfl

theorem File.holds_some (r : Nat) (h : FileHandle) (rid : Nat) :
    (File.mk (some (r, h))).holds rid = (r == rid) := rfl

theorem step_construct_none {s : Sys} {hid : Nat} (n : String)
    (hl : s.live.lookup hid = none) :
    step s (Op.construct hid n)
      = some { live := (hid, File.mk (some (s.nextRid, FileHandle.mk n))) :: s.live,
               nextRid := s.nextRid + 1,
               trace := s.trace ++ [Event.opened s.nextRid n] } := by
  simp [step, hl, FileHandle.openHandle, FileHandle.init]

theorem step_moveCtorInit_eq {s : Sys} {hid src : Nat} {fs : File}
    (h1 : s.live.lookup hid = none) (h2 : s.live.lookup src = some fs) :
    step s (Op.moveCtorInit hid src)
      = some { live := (hid, File.mk fs.fh) :: setF s.live src (File.mk none),
               nextRid := s.nextRid,
               trace := s.trace } := by
  simp [step, h1, h2]

theorem step_moveAssign_self {s : Sys} {tgt : Nat} {ft : File}
    (h1 : s.live.lookup tgt = some ft) :
    step s (Op.moveAssign tgt tgt) = some s := by
  simp [step, h1]

theorem step_moveAssign_eq {s : Sys} {tgt src : Nat} {ft fs : File}
    (h1 : s.live.lookup tgt = some ft) (h2 : s.live.lookup src = some fs)
    (hne : tgt ≠ src) :
    step s (Op.moveAssign tgt src)
      = some { live := setF (setF s.live tgt (File.mk fs.fh)) src (File.mk none),
               nextRid := s.nextRid,
               trace := s.trace ++ closeEvents ft.fh } := by
  simp [step, h1, h2, hne]

theorem step_destroy_eq {s : Sys} {hid : Nat} {f : File}
    (h1 : s.live.lookup hid = some f) :
    step s (Op.destroy hid)
      = some { live := eraseF s.live hid,
               nextRid := s.nextRid,
               trace := s.trace ++ closeEvents f.fh } := by
  simp [step, h1]

theorem step_write_owning {s : Sys} {hid : Nat} {f : File} {r : Nat} {h : FileHandle}
    (h1 : s.live.lookup hid = some f) (hf : f.fh = some (r, h)) :
    step s (Op.write hid)
      = some { live := setF s.live hid (File.mk (some (r, h))),
               nextRid := s.nextRid,
               trace := s.trace ++ [Event.wrote r h.name] } := by
  simp [step, h1, hf, FileHandle.write]

theorem step_write_empty {s : Sys} {hid : Nat} {f : File}
    (h1 : s.live.lookup hid = some f) (hf : f.fh = none) :
    step s (Op.write hid) = none := by
  simp [step, h1, hf]

theorem inv_init : Inv Sys.init := by
  constructor
  · simp [Sys.init, keys]
  · intro rid
    simp [Sys.init, openedCount, closedCount, countHolds]
  · intro rid _
    simp [Sys.init, openedCount, countHolds]
  · intro rid
    simp [Sys.init, openedCount]

theorem construct_inv {s : Sys} {hid : Nat} {n : String} {s1 : Sys}
    (hs : Inv s) (h : step s (Op.construct hid n) = some s1) : Inv s1 := by
  cases hl : s.live.lookup hid with
  | some f => simp [step, hl] at h
  | none =>
    rw [step_construct_none n hl] at h
    have hs1 := (Option.some.inj h).symm
    subst hs1
    have hmem : hid ∉ keys s.live := lookup_none_not_mem hl
    constructor
    · rw [keys_cons, List.nodup_cons]
      exact ⟨hmem, hs.nodup⟩
    · intro rid
      rw [openedCount_append, closedCount_append, openedCount_opened,
        closedCount_opened, countHolds_cons]
      by_cases hr : s.nextRid = rid
      · subst hr
        have hfr := hs.fresh s.nextRid le_rfl
        have hbal := hs.balance s.nextRid
        simp [File.holds_some] at hbal hfr ⊢
        omega
      · have hbal := hs.balance rid
        simp [File.holds_some, hr]
        omega
    · intro rid hrid
      have hrid2 : s.nextRid + 1 ≤ rid := hrid
      have hfr := hs.fresh rid (by omega)
      rw [openedCount_append, openedCount_opened, countHolds_cons]
      have hr : s.nextRid ≠ rid := by omega
      simp [File.holds_some, hr]
      omega
    · intro rid
      rw [openedCount_append, openedCount_opened]
      by_cases hr : s.nextRid = rid
      · subst hr
        have hfr := hs.fresh s.nextRid le_rfl
        simp
        omega
      · have := hs.once rid
        simp [hr]
        omega

theorem File.eta (f : File) : File.mk f.fh = f := rfl

theorem moveCtorInit_inv {s : Sys} {hid src : Nat} {s1 : Sys}
    (hs : Inv s) (h : step s (Op.moveCtorInit hid src) = some s1) : Inv s1 := by
  cases h1 : s.live.lookup hid with
  | some f => simp [step, h1] at h
  | none =>
    cases h2 : s.live.lookup src with
    | none => simp [step, h1, h2] at h
    | some fs =>
      rw [step_moveCtorInit_eq h1 h2] at h
      have hs1 := (Option.some.inj h).symm
      subst hs1
      have hmem : hid ∉ keys s.live := lookup_none_not_mem h1
      have hcnt := fun rid => countHolds_setF hs.nodup h2 (File.mk none) rid
      simp only [File.holds_none, File.eta] at hcnt
      simp only [Bool.false_eq_true, if_false] at hcnt
      constructor
      · rw [keys_cons, keys_setF, List.nodup_cons]
        exact ⟨hmem, hs.nodup⟩
      · intro rid
        have hbal := hs.balance rid
        have hc := hcnt rid
        dsimp only
        rw [countHolds_cons]
        simp only [File.eta]
        omega
      · intro rid hrid
        have hrid2 : s.nextRid ≤ rid := hrid
        have hfr := hs.fresh rid hrid2
        have hc := hcnt rid
        dsimp only
        rw [countHolds_cons]
        simp only [File.eta]
        refine ⟨hfr.1, ?_⟩
        omega
      · intro rid
        exact hs.once rid

theorem moveAssign_inv {s : Sys} {tgt src : Nat} {s1 : Sys}
    (hs : Inv s) (h : step s (Op.moveAssign tgt src) = some s1) : Inv s1 := by
  cases h1 : s.live.lookup tgt with
  | none => simp [step, h1] at h
  | some ft =>
    cases h2 : s.live.lookup src with
    | none => simp [step, h1, h2] at h
    | some fs =>
      by_cases hts : tgt = src
      · subst hts
        rw [step_moveAssign_self h1] at h
        have hs1 := (Option.some.inj h).symm
        subst hs1
        exact hs
      · rw [step_moveAssign_eq h1 h2 hts] at h
        have hs1 := (Option.some.inj h).symm
        subst hs1
        have hnd2 : (keys (setF s.live tgt (File.mk fs.fh))).Nodup := by
          rw [keys_setF]
          exact hs.nodup
        have hl2 : (setF s.live tgt (File.mk fs.fh)).lookup src = some fs :=
          (lookup_setF_ne (File.mk fs.fh) (fun hh => hts hh.symm)).trans h2
        have hE1 := fun rid =>
          countHolds_setF hs.nodup h1 (File.mk fs.fh) rid
        have hE2 := fun rid =>
          countHolds_setF hnd2 hl2 (File.mk none) rid
        simp only [File.holds_none, File.eta] at hE1 hE2
        simp only [Bool.false_eq_true, if_false] at hE2
        constructor
        · dsimp only
          rw [keys_setF, keys_setF]
          exact hs.nodup
        · intro rid
          have hbal := hs.balance rid
          have hc1 := hE1 rid
          have hc2 := hE2 rid
          dsimp only
          rw [openedCount_append, closedCount_append, openedCount_closeEvents,
            closedCount_closeEvents]
          simp only [File.eta]
          omega
        · intro rid hrid
          have hrid2 : s.nextRid ≤ rid := hrid
          have hfr := hs.fresh rid hrid2
          have hc1 := hE1 rid
          have hc2 := hE2 rid
          dsimp only
          rw [openedCount_append, openedCount_closeEvents]
          simp only [File.eta]
          refine ⟨by omega, by omega⟩
        · intro rid
          have := hs.once rid
          dsimp only
          rw [openedCount_append, openedCount_closeEvents]
          omega

theorem destroy_inv {s : Sys} {hid : Nat} {s1 : Sys}
    (hs : Inv s) (h : step s (Op.destroy hid) = some s1) : Inv s1 := by
  cases h1 : s.live.lookup hid with
  | none => simp [step, h1] at h
  | some f =>
    rw [step_destroy_eq h1] at h
    have hs1 := (Option.some.inj h).symm
    subst hs1
    have hE := fun rid => countHolds_eraseF hs.nodup h1 rid
    constructor
    · exact keys_eraseF_nodup hid hs.nodup
    · intro rid
      have hbal := hs.balance rid
      have hc := hE rid
      dsimp only
      rw [openedCount_append, closedCount_append, openedCount_closeEvents,
        closedCount_closeEvents]
      simp only [File.eta]
      omega
    · intro rid hrid
      have hrid2 : s.nextRid ≤ rid := hrid
      have hfr := hs.fresh rid hrid2
      have hc := hE rid
      dsimp only
      rw [openedCount_append, openedCount_closeEvents]
      refine ⟨by omega, by omega⟩
    · intro rid
      have := hs.once rid
      dsimp only
      rw [openedCount_append, openedCount_closeEvents]
      omega

theorem write_inv {s : Sys} {hid : Nat} {s1 : Sys}
    (hs : Inv s) (h : step s (Op.write hid) = some s1) : Inv s1 := by
  cases h1 : s.live.lookup hid with
  | none => simp [step, h1] at h
  | some f =>
    cases hf : f.fh with
    | none =>
      rw [step_write_empty h1 hf] at h
      exact absurd h (by simp)
    | some p =>
      obtain ⟨r, fh⟩ := p
      rw [step_write_owning h1 hf] at h
      have hs1 := (Option.some.inj h).symm
      subst hs1
      have hfile : File.mk (some (r, fh)) = f := by
        rw [← hf]
      have hE := fun rid => countHolds_setF hs.nodup h1 (File.mk (some (r, fh))) rid
      rw [hfile] at hE
      constructor
      · dsimp only
        rw [keys_setF]
        exact hs.nodup
      · intro rid
        have hbal := hs.balance rid
        have hc := hE rid
        dsimp only
        rw [hfile, openedCount_append, closedCount_append, openedCount_wrote,
          closedCount_wrote]
        omega
      · intro rid hrid
        have hrid2 : s.nextRid ≤ rid := hrid
        have hfr := hs.fresh rid hrid2
        have hc := hE rid
        dsimp only
        rw [hfile, openedCount_append, openedCount_wrote]
        refine ⟨by omega, by omega⟩
      · intro rid
        have := hs.once rid
        dsimp only
        rw [openedCount_append, openedCount_wrote]
        omega

theorem step_inv {s : Sys} {op : Op} {s1 : Sys}
    (hs : Inv s) (h : step s op = some s1) : Inv s1 := by
  cases op with
  | construct hid n => exact construct_inv hs h
  | moveCtorInit hid src => exact moveCtorInit_inv hs h
  | moveAssign tgt src => exact moveAssign_inv hs h
  | destroy hid => exact destroy_inv hs h
  | write hid => exact write_inv hs h

theorem run_inv {ops : List Op} {s s1 : Sys}
    (hs : Inv s) (h : run s ops = some s1) : Inv s1 := by
  induction ops generalizing s with
  | nil =>
    have : s = s1 := Option.some.inj h
    subst this
    exact hs
  | cons op ops ih =>
    cases hstep : step s op with
    | none => simp [run, hstep] at h
    | some s2 =>
      simp only [run, hstep] at h
      exact ih (step_inv hs hstep) h

theorem closedTotal_append (tr es : List Event) :
    closedTotal (tr ++ es) = closedTotal tr + closedTotal es := by
  simp [closedTotal, List.filter_append]

theorem closedTotal_closeEvents_le (fh : Option (Nat × FileHandle)) :
    closedTotal (closeEvents fh) ≤ 1 := by
  match fh with
  | none => simp [closeEvents, closedTotal]
  | some (r, h) => simp [closeEvents, closedTotal, Event.isClosedAny]

/-- C1: for every successful construction, exactly one close occurs by the
time the handle and anything it was transferred into are destroyed: over any
defined run that ends with every handle destroyed, each `FileHandle` identity
that was opened is closed exactly once and none is closed without having been
opened; and one `File` destructor performs exactly one close when the handle
is Owning and none when it is Empty. -/
theorem close_exactly_once :
    (∀ ops s1, run Sys.init ops = some s1 → s1.live = [] →
      ∀ rid, closedCount s1.trace rid = openedCount s1.trace rid
        ∧ openedCount s1.trace rid ≤ 1)
    ∧ (∀ s hid f, s.live.lookup hid = some f →
        (f.fh = none →
          step s (Op.destroy hid)
            = some { live := eraseF s.live hid, nextRid := s.nextRid,
                     trace := s.trace })
        ∧ ∀ r h, f.fh = some (r, h) →
          step s (Op.destroy hid)
            = some { live := eraseF s.live hid, nextRid := s.nextRid,
                     trace := s.trace ++ [Event.closed r h.name] }) := by
  constructor
  · intro ops s1 hrun hdone rid
    have hinv := run_inv inv_init hrun
    have hbal := hinv.balance rid
    have honce := hinv.once rid
    rw [hdone] at hbal
    simp only [countHolds, List.filter_nil, List.length_nil] at hbal
    exact ⟨by omega, honce⟩
  · intro s hid f h1
    constructor
    · intro hf
      rw [step_destroy_eq h1, hf]
      simp [closeEvents]
    · intro r h hf
      rw [step_destroy_eq h1, hf]
      rfl

/-- Witness for C1 at the run `File a("foo");` followed by `a` leaving scope. -/
theorem close_exactly_once_witness :
    closedCount [Event.opened 0 "foo", Event.closed 0 "foo"] 0
      = openedCount [Event.opened 0 "foo", Event.closed 0 "foo"] 0 :=
  (close_exactly_once.1 [Op.construct 0 "foo", Op.destroy 0]
    { live := [], nextRid := 1,
      trace := [Event.opened 0 "foo", Event.closed 0 "foo"] }
    (by decide) rfl 0).1

/-- C2: a transfer (move construction or move assignment between distinct
handles) makes the target adopt the source's `fh_` state and leaves the
source Empty unconditionally; and in the scenario construct A, move A into B,
destroy A, destroy B, the destruction of A performs no close while the
destruction of B closes A's original resource exactly once. -/
theorem transfer_adopts_source_state :
    (∀ s hid src fs s1, s.live.lookup hid = none → s.live.lookup src = some fs →
      step s (Op.moveCtorInit hid src) = some s1 →
      s1.live.lookup hid = some fs ∧ s1.live.lookup src = some (File.mk none))
    ∧ (∀ s tgt src ft fs s1, tgt ≠ src →
      s.live.lookup tgt = some ft → s.live.lookup src = some fs →
      step s (Op.moveAssign tgt src) = some s1 →
      s1.live.lookup tgt = some fs ∧ s1.live.lookup src = some (File.mk none))
    ∧ run Sys.init [Op.construct 0 "foo", Op.moveCtorInit 1 0,
        Op.destroy 0, Op.destroy 1]
      = some { live := [], nextRid := 1,
               trace := [Event.opened 0 "foo", Event.closed 0 "foo"] } := by
  refine ⟨?_, ?_, by decide⟩
  · intro s hid src fs s1 h1 h2 hstep
    have hne : hid ≠ src := by
      intro he
      rw [he, h2] at h1
      exact Option.noConfusion h1
    rw [step_moveCtorInit_eq h1 h2] at hstep
    have hs1 := (Option.some.inj hstep).symm
    subst hs1
    dsimp only
    constructor
    · rw [lookup_cons, if_pos rfl]
    · rw [lookup_cons, if_neg (fun hh => hne hh.symm)]
      exact lookup_setF_self _ h2
  · intro s tgt src ft fs s1 hts h1 h2 hstep
    rw [step_moveAssign_eq h1 h2 hts] at hstep
    have hs1 := (Option.some.inj hstep).symm
    subst hs1
    dsimp only
    constructor
    · have ha := lookup_setF_ne (l := setF s.live tgt (File.mk fs.fh))
        (File.mk none) hts
      have hb := lookup_setF_self (l := s.live) (File.mk fs.fh) h1
      exact ha.trans hb
    · have hsrc : (setF s.live tgt (File.mk fs.fh)).lookup src = some fs :=
        (lookup_setF_ne _ (fun hh => hts hh.symm)).trans h2
      exact lookup_setF_self _ hsrc

/-- Witness for C2 at the state holding only `File a("foo")` followed by
`File b(std::move(a))`. -/
theorem transfer_adopts_source_state_witness :
    List.lookup 1 [(1, File.mk (some (0, FileHandle.mk "foo"))), (0, File.mk none)]
      = some (File.mk (some (0, FileHandle.mk "foo")))
    ∧ List.lookup 0 [(1, File.mk (some (0, FileHandle.mk "foo"))), (0, File.mk none)]
      = some (File.mk none) :=
  transfer_adopts_source_state.1
    { live := [(0, File.mk (some (0, FileHandle.mk "foo")))], nextRid := 1,
      trace := [Event.opened 0 "foo"] }
    1 0 (File.mk (some (0, FileHandle.mk "foo")))
    { live := [(1, File.mk (some (0, FileHandle.mk "foo"))), (0, File.mk none)],
      nextRid := 1, trace := [Event.opened 0 "foo"] }
    (by decide) (by decide) (by decide)

/-- C3: move assignment into a target that currently owns a resource closes
that prior resource exactly once before the target adopts the source's
resource, and any transfer (move assignment or move construction) performs at
most one external close call. -/
theorem transfer_closes_prior_resource :
    (∀ s tgt src ft fs rt ht s1, tgt ≠ src →
      s.live.lookup tgt = some ft → s.live.lookup src = some fs →
      ft.fh = some (rt, ht) →
      step s (Op.moveAssign tgt src) = some s1 →
      s1.trace = s.trace ++ [Event.closed rt ht.name]
        ∧ closedCount s1.trace rt = closedCount s.trace rt + 1
        ∧ s1.live.lookup tgt = some fs)
    ∧ (∀ s tgt src s1, step s (Op.moveAssign tgt src) = some s1 →
        closedTotal s1.trace ≤ closedTotal s.trace + 1)
    ∧ (∀ s hid src s1, step s (Op.moveCtorInit hid src) = some s1 →
        closedTotal s1.trace = closedTotal s.trace) := by
  refine ⟨?_, ?_, ?_⟩
  · intro s tgt src ft fs rt ht s1 hts h1 h2 hft hstep
    rw [step_moveAssign_eq h1 h2 hts] at hstep
    have hs1 := (Option.some.inj hstep).symm
    subst hs1
    dsimp only
    rw [hft]
    refine ⟨rfl, ?_, ?_⟩
    · rw [closedCount_append]
      have : closedCount (closeEvents (some (rt, ht))) rt = 1 := by
        simp [closeEvents, closedCount, Event.isClosedOf]
      rw [this]
    · have ha := lookup_setF_ne (l := setF s.live tgt (File.mk fs.fh))
        (File.mk none) hts
      have hb := lookup_setF_self (l := s.live) (File.mk fs.fh) h1
      exact ha.trans hb
  · intro s tgt src s1 hstep
    cases h1 : s.live.lookup tgt with
    | none => simp [step, h1] at hstep
    | some ft =>
      cases h2 : s.live.lookup src with
      | none => simp [step, h1, h2] at hstep
      | some fs =>
        by_cases hts : tgt = src
        · subst hts
          rw [step_moveAssign_self h1] at hstep
          have := (Option.some.inj hstep).symm
          subst this
          omega
        · rw [step_moveAssign_eq h1 h2 hts] at hstep
          have := (Option.some.inj hstep).symm
          subst this
          dsimp only
          rw [closedTotal_append]
          have := closedTotal_closeEvents_le ft.fh
          omega
  · intro s hid src s1 hstep
    cases h1 : s.live.lookup hid with
    | some f => simp [step, h1] at hstep
    | none =>
      cases h2 : s.live.lookup src with
      | none => simp [step, h1, h2] at hstep
      | some fs =>
        rw [step_moveCtorInit_eq h1 h2] at hstep
        have := (Option.some.inj hstep).symm
        subst this
        rfl

/-- Witness for C3 at the state holding `File a("foo")` and `File c("bar")`
followed by `c = std::move(a)`. -/
theorem transfer_closes_prior_resource_witness :
    [Event.opened 0 "foo", Event.opened 1 "bar", Event.closed 1 "bar"]
      = [Event.opened 0 "foo", Event.opened 1 "bar"] ++ [Event.closed 1 "bar"]
    ∧ closedCount [Event.opened 0 "foo", Event.opened 1 "bar",
        Event.closed 1 "bar"] 1
      = closedCount [Event.opened 0 "foo", Event.opened 1 "bar"] 1 + 1
    ∧ List.lookup 1 [(1, File.mk (some (0, FileHandle.mk "foo"))),
        (0, File.mk none)]
      = some (File.mk (some (0, FileHandle.mk "foo"))) := by
  have h := transfer_closes_prior_resource.1
    { live := [(1, File.mk (some (1, FileHandle.mk "bar"))),
        (0, File.mk (some (0, FileHandle.mk "foo")))], nextRid := 2,
      trace := [Event.opened 0 "foo", Event.opened 1 "bar"] }
    1 0 (File.mk (some (1, FileHandle.mk "bar")))
    (File.mk (some (0, FileHandle.mk "foo"))) 1 (FileHandle.mk "bar")
    { live := [(1, File.mk (some (0, FileHandle.mk "foo"))), (0, File.mk none)],
      nextRid := 2,
      trace := [Event.opened 0 "foo", Event.opened 1 "bar", Event.closed 1 "bar"] }
    (by decide) (by decide) (by decide) (by decide) (by decide)
  exact h

/-- C4: construction opens the resource immediately and exactly once with the
given identifier, and the constructed handle is Owning: from any reachable
state, `File x(n);` at a fresh variable appends exactly the `opening: n` event
for the freshly allocated `FileHandle`, that identity has then been opened
exactly once, and the new handle owns it. -/
theorem construct_opens_immediately :
    ∀ ops s hid n s1, run Sys.init ops = some s →
      s.live.lookup hid = none →
      step s (Op.construct hid n) = some s1 →
      s1.trace = s.trace ++ [Event.opened s.nextRid n]
        ∧ openedCount s1.trace s.nextRid = 1
        ∧ s1.live.lookup hid = some (File.mk (some (s.nextRid, FileHandle.mk n))) := by
  intro ops s hid n s1 hrun h1 hstep
  have hinv := run_inv inv_init hrun
  rw [step_construct_none n h1] at hstep
  have hs1 := (Option.some.inj hstep).symm
  subst hs1
  dsimp only
  refine ⟨rfl, ?_, ?_⟩
  · rw [openedCount_append, openedCount_opened, if_pos rfl]
    have := (hinv.fresh s.nextRid le_rfl).1
    omega
  · rw [lookup_cons, if_pos rfl]

/-- Witness for C4: the very first construction, `File a("foo");`. -/
theorem construct_opens_immediately_witness :
    [Event.opened 0 "foo"] = ([] : List Event) ++ [Event.opened 0 "foo"]
    ∧ openedCount [Event.opened 0 "foo"] 0 = 1
    ∧ List.lookup 0 [(0, File.mk (some (0, FileHandle.mk "foo")))]
      = some (File.mk (some (0, FileHandle.mk "foo"))) :=
  construct_opens_immediately [] Sys.init 0 "foo"
    { live := [(0, File.mk (some (0, FileHandle.mk "foo")))], nextRid := 1,
      trace := [Event.opened 0 "foo"] }
    rfl rfl (by decide)

/-- C5: at every reachable point of every sequence of handle operations, at
most one live `File` owns any given `FileHandle` identity. -/
theorem at_most_one_owner :
    ∀ ops s1, run Sys.init ops = some s1 →
      ∀ rid, countHolds s1.live rid ≤ 1 := by
  intro ops s1 hrun rid
  have hinv := run_inv inv_init hrun
  have hbal := hinv.balance rid
  have honce := hinv.once rid
  omega

/-- Witness for C5 after the single construction `File a("foo");`. -/
theorem at_most_one_owner_witness :
    countHolds [(0, File.mk (some (0, FileHandle.mk "foo")))] 0 ≤ 1 :=
  at_most_one_owner [Op.construct 0 "foo"]
    { live := [(0, File.mk (some (0, FileHandle.mk "foo")))], nextRid := 1,
      trace := [Event.opened 0 "foo"] }
    (by decide) 0

/-- Counterexample to C6 as stated: calling `write` on an Empty (moved-from)
handle does not fail with a surfaced `UseAfterRelease` error; it dereferences
the null `fh_` pointer, which is undefined behavior. -/
theorem write_empty_counterexample :
    File.writeBehavior (File.mk none) = WriteBehavior.nullDeref
    ∧ File.writeBehavior (File.mk none) ≠ WriteBehavior.raisesUseAfterRelease :=
  ⟨rfl, by decide⟩

/-- C6 amended: calling `write` on a handle in the Empty state is undefined
behavior (a null `unique_ptr` dereference), not a surfaced `UseAfterRelease`
error; correspondingly a `write` on an Empty live handle has no defined
next state. -/
theorem write_empty_is_undefined :
    (∀ f : File, f.fh = none → f.writeBehavior = WriteBehavior.nullDeref)
    ∧ (∀ s hid f, s.live.lookup hid = some f → f.fh = none →
        step s (Op.write hid) = none) := by
  constructor
  · intro f hf
    simp [File.writeBehavior, hf]
  · intro s hid f h1 hf
    exact step_write_empty h1 hf

/-- Witness for the amended C6 at a moved-from handle. -/
theorem write_empty_is_undefined_witness :
    (File.mk none).writeBehavior = WriteBehavior.nullDeref ∧
    step { live := [(0, File.mk none)], nextRid := 1,
           trace := [Event.opened 0 "foo"] } (Op.write 0) = none :=
  ⟨write_empty_is_undefined.1 (File.mk none) rfl,
   write_empty_is_undefined.2
     { live := [(0, File.mk none)], nextRid := 1,
       trace := [Event.opened 0 "foo"] }
     0 (File.mk none) (by decide) rfl⟩

/-- C8: self-transfer is a no-op guarded explicitly by
`if (this == &other) { return *this; }`: move-assigning a live handle into
itself leaves the whole state unchanged, in particular the handle's state and
resource identity, and emits no close event. -/
theorem self_transfer_noop :
    ∀ s hid f, s.live.lookup hid = some f →
      step s (Op.moveAssign hid hid) = some s :=
  fun _s _hid _f h1 => step_moveAssign_self h1

/-- Witness for C8 at a state holding one Owning handle. -/
theorem self_transfer_noop_witness :
    step { live := [(0, File.mk (some (0, FileHandle.mk "foo")))], nextRid := 1,
           trace := [Event.opened 0 "foo"] } (Op.moveAssign 0 0)
      = some { live := [(0, File.mk (some (0, FileHandle.mk "foo")))], nextRid := 1,
               trace := [Event.opened 0 "foo"] } :=
  self_transfer_noop
    { live := [(0, File.mk (some (0, FileHandle.mk "foo")))], nextRid := 1,
      trace := [Event.opened 0 "foo"] }
    0 (File.mk (some (0, FileHandle.mk "foo"))) (by decide)

/-- C9: construction never fails in this implementation: `FileHandle::open`
unconditionally succeeds for every name, so `File x(n);` at a fresh variable
always produces an Owning handle and the `ResourceUnavailable` branch of the
specification is unreachable. -/
theorem construct_never_fails :
    (∀ fh n, FileHandle.openHandle fh n = (FileHandle.mk n, "opening: " ++ n))
    ∧ (∀ s hid n, s.live.lookup hid = none →
        ∃ s1, step s (Op.construct hid n) = some s1
          ∧ s1.live.lookup hid
            = some (File.mk (some (s.nextRid, FileHandle.mk n)))) := by
  constructor
  · intro fh n
    rfl
  · intro s hid n h1
    refine ⟨_, step_construct_none n h1, ?_⟩
    dsimp only
    rw [lookup_cons, if_pos rfl]

/-- Witness for C9 at the very first construction. -/
theorem construct_never_fails_witness :
    ∃ s1, step Sys.init (Op.construct 0 "foo") = some s1
      ∧ s1.live.lookup 0 = some (File.mk (some (0, FileHandle.mk "foo"))) :=
  construct_never_fails.2 Sys.init 0 "foo" rfl

/-- C10: the raw collaborator `FileHandle` is total in this idealized model:
`write` on a default-constructed handle prints using the name
`uninitialized.`, `close` on it prints using `uninitialized.` and sets the
name to `closed.`, a second `close` prints using `closed.`, and `open` may be
called again after `close` — every such misuse returns normally. -/
theorem fileHandle_misuse_is_total :
    FileHandle.init.write = (FileHandle.init, "writing to: uninitialized.")
    ∧ FileHandle.init.close
      = (FileHandle.mk "closed.", "closing: uninitialized.")
    ∧ (FileHandle.init.close).1.close
      = (FileHandle.mk "closed.", "closing: closed.")
    ∧ ((FileHandle.init.close).1.openHandle "foo (reborn)")
      = (FileHandle.mk "foo (reborn)", "opening: foo (reborn)") :=
  ⟨rfl, rfl, rfl, rfl⟩

end UsecaseFiles
